import Mathlib

/-!
Formal model of the 1980s-movies dashboard (`app_movies.py`).

The program has two pieces of core logic:

* `load_data` — reads the raw table, keeps the rows whose `year` lies in
  [1980, 1989], coerces `budget`/`gross`/`score` to numbers (coercion
  failure or absence becomes 0), divides `budget` and `gross` by
  1,000,000, and derives a collapsed genre label `genre_filtered`
  (the row's genre when it is among the 5 most frequent genres of the
  decade-filtered set, the literal "Other" otherwise);
* `filter_data` — keeps the rows whose score lies in the selected range,
  whose director/star matches a case-insensitive keyword (when a keyword
  is given), and whose `genre_filtered` is among the selected genres.

Tables are embedded as lists of records, pandas NaN cells as `Option`,
numeric cells as rationals.  pandas `value_counts().head(5)` is embedded
as a stable sort of the distinct genres by descending frequency followed
by `take 5` (the tie-break at the 5th place is unspecified in pandas and
flagged as an open question by the design notes; the embedding fixes one
deterministic stable order).  `str.contains(kw, case=False, na=False)`
defaults to `regex=True`, so the keyword is compiled as a
case-insensitive regular expression; the embedding carries both the
total substring abstraction (`filter_data`, exact for keywords without
regex metacharacters) and the regex-faithful stage on a modelled
fragment of Python regular expressions (`filter_data_re`), including
the `re.error` raising path for invalid patterns; a missing cell never
matches (`na=False`).  The CSV export is embedded at the character
level with the csv module's QUOTE_MINIMAL quoting, so re-parsing
recovers the exported grid whatever the cells contain.
-/

namespace Movies

/-- One row of the raw source table (`movies_updated.csv`) as read by
`pd.read_csv`: a numeric cell that is missing or would fail numeric
coercion is `none` (pandas `NaN`), a missing text cell is `none`. -/
structure RawRow where
  name : String
  year : Option Int
  genre : Option String
  score : Option ℚ
  director : Option String
  star : Option String
  budget : Option ℚ
  gross : Option ℚ
  runtime : Option String
  company : Option String
deriving DecidableEq

/-- One row of the cleaned table produced by `load_data`: `year` is an
integer in the decade, `score`, `budget`, `gross` are always-present
numbers, and `genre_filtered` is the derived collapsed genre label. -/
structure MovieRecord where
  name : String
  year : Int
  genre : Option String
  score : ℚ
  director : Option String
  star : Option String
  budget : ℚ
  gross : ℚ
  runtime : Option String
  company : Option String
  genre_filtered : String
deriving DecidableEq

/-- Embedding of `df['year'].between(1980, 1989)` on one row: a missing
or non-numeric year never lies in the range. -/
def yearInDecade (r : RawRow) : Bool :=
  match r.year with
  | some y => decide (1980 ≤ y) && decide (y ≤ 1989)
  | none => false

/-- Embedding of `pd.to_numeric(col, errors='coerce').fillna(0)` on one
cell: a value that fails coercion (including a missing one) becomes 0. -/
def coerceFill0 (v : Option ℚ) : ℚ :=
  v.getD 0

/-- Number of decade-filtered rows carrying the genre `g`
(`df['genre'].value_counts()` counts non-missing cells only). -/
def countGenre (rows : List RawRow) (g : String) : Nat :=
  rows.countP (fun r => r.genre == some g)

/-- The distinct non-missing genre values of `rows`, in order of first
appearance. -/
def distinctGenres (rows : List RawRow) : List String :=
  rows.foldl
    (fun acc r =>
      match r.genre with
      | some g => if g ∈ acc then acc else acc ++ [g]
      | none => acc)
    []

/-- Embedding of `df['genre'].value_counts().head(5).index.tolist()`:
the distinct genres stably sorted by descending frequency, first five
kept.  (pandas leaves the order of equal-frequency genres unspecified;
the embedding fixes the stable order on first appearance.) -/
def topGenres (rows : List RawRow) : List String :=
  ((distinctGenres rows).insertionSort
    (fun a b => countGenre rows b ≤ countGenre rows a)).take 5

/-- The per-row cleaning of `load_data`, given the list `top` of top
genres: numeric coercion with 0 for failures, unit scaling of budget and
gross to millions, and the derived `genre_filtered` label
(`df['genre'].where(df['genre'].isin(top_genres), 'Other')`; a missing
genre also collapses to `"Other"`). -/
def cleanRow (top : List String) (r : RawRow) : MovieRecord :=
  { name := r.name
    year := (r.year).getD 0
    genre := r.genre
    score := coerceFill0 r.score
    director := r.director
    star := r.star
    budget := coerceFill0 r.budget / 1000000
    gross := coerceFill0 r.gross / 1000000
    runtime := r.runtime
    company := r.company
    genre_filtered :=
      match r.genre with
      | some g => if g ∈ top then g else "Other"
      | none => "Other" }

/-- Embedding of `load_data` (lines 11–22 of `app_movies.py`): keep the
rows whose year lies in [1980, 1989], then clean each row, deriving
`genre_filtered` from the top-5 genres of the decade-filtered set. -/
def load_data (raw : List RawRow) : List MovieRecord :=
  let decade := raw.filter yearInDecade
  decade.map (cleanRow (topGenres decade))

/-- Lower-cased character list of a string (ASCII case folding, as in a
case-insensitive pandas substring match). -/
def lowerChars (s : String) : List Char :=
  s.toList.map Char.toLower

/-- The case-insensitive substring test: the lower-cased keyword occurs
as a contiguous substring of the lower-cased cell.  pandas
`str.contains(kw, case=False)` interprets `kw` as a regular expression
(`regex=True` by default); this total predicate is the substring
abstraction of that test, and it agrees with the regex semantics
exactly when the keyword has no regex metacharacters (proved below via
`parseRegex_safe` and `reSearch_lit`); the regex-faithful stage,
including the raising path, is `filter_data_re`. -/
def strContainsCI (s kw : String) : Bool :=
  decide (lowerChars kw <:+: lowerChars s)

/-- The same test on a possibly missing cell (`na=False`): a missing
cell never matches. -/
def fieldContains (field : Option String) (kw : String) : Bool :=
  match field with
  | some s => strContainsCI s kw
  | none => false

/-- The keyword stage predicate of `filter_data`: the field selected by
`search_type` (`director` for `"Director"`, `star` for anything else)
must contain the keyword case-insensitively. -/
def keywordPass (kw search_type : String) (r : MovieRecord) : Bool :=
  if search_type = "Director" then fieldContains r.director kw
  else fieldContains r.star kw

/-- The score stage predicate of `filter_data`:
`(df['score'] >= score_min) & (df['score'] <= score_max)`. -/
def scorePass (score_min score_max : ℚ) (r : MovieRecord) : Bool :=
  decide (score_min ≤ r.score) && decide (r.score ≤ score_max)

/-- Embedding of `filter_data` (lines 60–71 of `app_movies.py`): score
range stage, then the keyword stage (skipped when the keyword is the
empty string, which is falsy in Python), then the genre-membership
stage (`isin(selected_genres)`).  The keyword test here is the total
substring abstraction `keywordPass`, exact for keywords without regex
metacharacters; `filter_data_re` below is the regex-faithful variant
with the `re.error` raising path. -/
def filter_data (df : List MovieRecord) (score_min score_max : ℚ)
    (search_keyword search_type : String) (selected_genres : List String) :
    List MovieRecord :=
  let f1 := df.filter (scorePass score_min score_max)
  let f2 :=
    if search_keyword = "" then f1
    else f1.filter (keywordPass search_keyword search_type)
  f2.filter (fun r => selected_genres.contains r.genre_filtered)

/-- A token of the modelled fragment of Python regular expressions: a
literal character or the `.` wildcard (which matches any character). -/
inductive RegexToken
  | dot
  | lit (c : Char)
deriving DecidableEq

/-- Characters modelled as regex literals: letters, digits and the
space, which Python `re` treats as ordinary (non-special)
characters. -/
def regexSafeChar (c : Char) : Bool :=
  c.isAlpha || c.isDigit || c = ' '

/-- Compilation of a keyword as a Python regular expression, on the
modelled fragment: ordinary characters and `.` become tokens, balanced
`(`…`)` groups are transparent for matching (a group without a
quantifier matches exactly like its contents), an unbalanced
parenthesis raises `re.error` exactly as `re.compile` does, and any
other metacharacter is outside the modelled fragment.  The `depth`
argument counts currently open groups. -/
def parseRegex : List Char → Nat → Except String (List RegexToken)
  | [], 0 => Except.ok []
  | [], _ + 1 => Except.error "re.error"
  | c :: rest, depth =>
    if c = '.' then
      (parseRegex rest depth).map (fun ts => RegexToken.dot :: ts)
    else if c = '(' then parseRegex rest (depth + 1)
    else if c = ')' then
      match depth with
      | 0 => Except.error "re.error"
      | d + 1 => parseRegex rest d
    else if regexSafeChar c then
      (parseRegex rest depth).map (fun ts => RegexToken.lit c :: ts)
    else Except.error "unmodelled metacharacter"

/-- Whether one regex token matches one character: `.` matches
anything, a literal matches itself. -/
def tokMatch : RegexToken → Char → Bool
  | RegexToken.dot, _ => true
  | RegexToken.lit c, x => c = x

/-- Whether the token list matches a prefix of the character list. -/
def matchHere : List RegexToken → List Char → Bool
  | [], _ => true
  | _ :: _, [] => false
  | t :: ts, c :: cs => tokMatch t c && matchHere ts cs

/-- Embedding of `re.search` on the modelled fragment: the pattern
matches starting at some position of the text. -/
def reSearch (ts : List RegexToken) : List Char → Bool
  | [] => matchHere ts []
  | c :: cs => matchHere ts (c :: cs) || reSearch ts cs

/-- The regex-faithful embedding of `filter_data`: identical staging to
`filter_data`, but the non-empty keyword is compiled as a regular
expression first (pandas compiles it before mapping over the series),
so an invalid pattern raises (`Except.error`) before any row is
returned, and a row passes the keyword stage iff the regex matches
somewhere in the selected field (case-insensitively via lowering;
`na=False`: a missing field never matches). -/
def filter_data_re (df : List MovieRecord) (score_min score_max : ℚ)
    (search_keyword search_type : String) (selected_genres : List String) :
    Except String (List MovieRecord) :=
  let f1 := df.filter (scorePass score_min score_max)
  if search_keyword = "" then
    Except.ok
      (f1.filter (fun r => selected_genres.contains r.genre_filtered))
  else
    match parseRegex (lowerChars search_keyword) 0 with
    | Except.error e => Except.error e
    | Except.ok ts =>
      Except.ok
        ((f1.filter (fun r =>
            match (if search_type = "Director" then r.director
              else r.star) with
            | some s => reSearch ts (lowerChars s)
            | none => false)).filter
          (fun r => selected_genres.contains r.genre_filtered))

/-- Embedding of `df['genre_filtered'].unique().tolist()`: the distinct
`genre_filtered` values of the cleaned table, in order of first
appearance. -/
def genreOptions (df : List MovieRecord) : List String :=
  df.foldl
    (fun acc r =>
      if r.genre_filtered ∈ acc then acc else acc ++ [r.genre_filtered])
    []

/-- Embedding of `.iloc[0]`: the first row of a table, an `IndexError`
on an empty one. -/
def iloc0 (df : List MovieRecord) : Except String MovieRecord :=
  match df with
  | [] => Except.error "IndexError"
  | r :: _ => Except.ok r

/-- Embedding of the detail lookup
`filtered_df[filtered_df['name'] == selected_movie].iloc[0]`
(lines 201–203 of `app_movies.py`). -/
def movie_detail (df : List MovieRecord) (selected : String) :
    Except String MovieRecord :=
  iloc0 (df.filter (fun r => r.name == selected))

/-- A concrete source row used to exercise the pipeline. -/
def aliensRaw : RawRow :=
  { name := "Aliens", year := some 1986, genre := some "Action",
    score := some 8, director := some "James Cameron",
    star := some "Sigourney Weaver", budget := some 18500000,
    gross := some 183316455, runtime := some "137", company := some "Fox" }

/-- The cleaned record the pipeline derives from `aliensRaw`. -/
def aliensClean : MovieRecord :=
  cleanRow (topGenres [aliensRaw]) aliensRaw

theorem load_data_aliens : load_data [aliensRaw] = [aliensClean] := rfl

/-- A concrete cleaned record used to exercise the filter engine. -/
def plainRec : MovieRecord :=
  { name := "A", year := 1985, genre := some "Action", score := 8,
    director := some "D", star := some "S", budget := 1, gross := 2,
    runtime := none, company := none, genre_filtered := "Action" }

/-- Every row of the cleaned table is the cleaning of some source row
that passed the decade filter. -/
theorem mem_load_data {raw : List RawRow} {rec : MovieRecord}
    (hrec : rec ∈ load_data raw) :
    ∃ r, r ∈ raw ∧ yearInDecade r = true ∧
      rec = cleanRow (topGenres (raw.filter yearInDecade)) r := by
  simp only [load_data] at hrec
  obtain ⟨r, hr, hmap⟩ := List.mem_map.mp hrec
  obtain ⟨hraw, hdec⟩ := List.mem_filter.mp hr
  exact ⟨r, hraw, hdec, hmap.symm⟩

/-- A source row that passes the decade filter has a present numeric
year, equal to the cleaned year, lying in the decade. -/
theorem cleanRow_year_bounds {r : RawRow} (hdec : yearInDecade r = true)
    (top : List String) :
    1980 ≤ (cleanRow top r).year ∧ (cleanRow top r).year ≤ 1989 ∧
      r.year = some (cleanRow top r).year := by
  unfold yearInDecade at hdec
  cases hy : r.year with
  | none => rw [hy] at hdec; exact absurd hdec (by simp)
  | some y =>
    rw [hy] at hdec
    simp only [Bool.and_eq_true, decide_eq_true_eq] at hdec
    have hyr : (cleanRow top r).year = y := by simp [cleanRow, hy]
    rw [hyr]
    exact ⟨hdec.1, hdec.2, rfl⟩

/-- C1: every row of the table returned by `load_data` has
`1980 ≤ year ≤ 1989` (both ends inclusive), and every cleaned row
originates from a source row whose `year` cell is present and numeric
(equal to the cleaned year); a source row with a missing or non-numeric
year is excluded by the decade filter and contributes no cleaned row. -/
theorem cleaned_year_in_decade (raw : List RawRow) (rec : MovieRecord)
    (hrec : rec ∈ load_data raw) :
    (1980 ≤ rec.year ∧ rec.year ≤ 1989) ∧
      ∃ r, r ∈ raw ∧ r.year = some rec.year := by
  obtain ⟨r, hraw, hdec, rfl⟩ := mem_load_data hrec
  obtain ⟨h1, h2, h3⟩ := cleanRow_year_bounds hdec _
  exact ⟨⟨h1, h2⟩, r, hraw, h3⟩

theorem cleaned_year_in_decade_witness :
    (1980 ≤ aliensClean.year ∧ aliensClean.year ≤ 1989) ∧
      ∃ r, r ∈ [aliensRaw] ∧ r.year = some aliensClean.year :=
  cleaned_year_in_decade [aliensRaw] aliensClean
    (by rw [load_data_aliens]; exact List.mem_singleton.mpr rfl)

/-- C2: for every row of the cleaned table, `score` is the numeric
coercion of the raw score cell with failure or absence mapped to 0, and
`budget` and `gross` are the same coercion of their raw cells divided by
1,000,000.  In the record type `score`, `budget`, `gross` are plain
rationals, never an optional value, so the three fields are always
present and numeric after cleaning. -/
theorem cleaned_numeric_fields (raw : List RawRow) (rec : MovieRecord)
    (hrec : rec ∈ load_data raw) :
    ∃ r, r ∈ raw ∧ yearInDecade r = true ∧
      rec.score = coerceFill0 r.score ∧
      rec.budget = coerceFill0 r.budget / 1000000 ∧
      rec.gross = coerceFill0 r.gross / 1000000 := by
  obtain ⟨r, hraw, hdec, rfl⟩ := mem_load_data hrec
  exact ⟨r, hraw, hdec, rfl, rfl, rfl⟩

theorem cleaned_numeric_fields_witness :
    ∃ r, r ∈ [aliensRaw] ∧ yearInDecade r = true ∧
      aliensClean.score = coerceFill0 r.score ∧
      aliensClean.budget = coerceFill0 r.budget / 1000000 ∧
      aliensClean.gross = coerceFill0 r.gross / 1000000 :=
  cleaned_numeric_fields [aliensRaw] aliensClean
    (by rw [load_data_aliens]; exact List.mem_singleton.mpr rfl)

/-- The accumulator-passing fold of `genreOptions` keeps the
accumulator duplicate-free. -/
theorem genreOptions_aux_nodup (df : List MovieRecord) :
    ∀ acc : List String, acc.Nodup →
      (df.foldl
        (fun acc r =>
          if r.genre_filtered ∈ acc then acc
          else acc ++ [r.genre_filtered]) acc).Nodup := by
  induction df with
  | nil => intro acc h; simpa using h
  | cons r df ih =>
    intro acc h
    simp only [List.foldl_cons]
    by_cases hm : r.genre_filtered ∈ acc
    · rw [if_pos hm]; exact ih acc h
    · rw [if_neg hm]
      refine ih _ ?_
      simp [List.nodup_append, h, hm]

/-- The accumulator-passing fold of `genreOptions` only collects values
taken by `genre_filtered` on the table (or already in the
accumulator). -/
theorem genreOptions_aux_subset (L : List String) :
    ∀ df : List MovieRecord, (∀ r ∈ df, r.genre_filtered ∈ L) →
      ∀ acc : List String, acc ⊆ L →
        (df.foldl
          (fun acc r =>
            if r.genre_filtered ∈ acc then acc
            else acc ++ [r.genre_filtered]) acc) ⊆ L := by
  intro df
  induction df with
  | nil => intro _ acc h; simpa using h
  | cons r df ih =>
    intro hdf acc hacc
    simp only [List.foldl_cons]
    have hdf2 : ∀ x ∈ df, x.genre_filtered ∈ L :=
      fun x hx => hdf x (List.mem_cons_of_mem _ hx)
    by_cases hm : r.genre_filtered ∈ acc
    · rw [if_pos hm]; exact ih hdf2 acc hacc
    · rw [if_neg hm]
      refine ih hdf2 _ ?_
      intro x hx
      rcases List.mem_append.mp hx with h1 | h2
      · exact hacc h1
      · rw [List.mem_singleton.mp h2]
        exact hdf r (List.mem_cons_self r df)

/-- The top-genre list never has more than five entries. -/
theorem topGenres_length_le (rows : List RawRow) :
    (topGenres rows).length ≤ 5 := by
  unfold topGenres
  rw [List.length_take]
  exact min_le_left _ _

/-- The collapsed genre label of a cleaned row is one of the top genres
or the literal "Other". -/
theorem cleanRow_gf_mem (top : List String) (r : RawRow) :
    (cleanRow top r).genre_filtered ∈ top ∨
      (cleanRow top r).genre_filtered = "Other" := by
  cases hg : r.genre with
  | none => right; simp [cleanRow, hg]
  | some g =>
    by_cases htop : g ∈ top
    · left; simp [cleanRow, hg, htop]
    · right; simp [cleanRow, hg, htop]

/-- C3: for every row of the cleaned table, `genre_filtered` equals the
row's genre when that genre is among the top-5 genres computed once over
the decade-filtered set, and equals the literal "Other" otherwise (also
when the genre cell is missing); consequently the distinct
`genre_filtered` values of the cleaned table number at most 6
(top 5 plus "Other"). -/
theorem genre_filtered_top5_or_other (raw : List RawRow) :
    (∀ rec ∈ load_data raw,
      (∀ g, rec.genre = some g →
        (g ∈ topGenres (raw.filter yearInDecade) → rec.genre_filtered = g) ∧
        (g ∉ topGenres (raw.filter yearInDecade) →
          rec.genre_filtered = "Other")) ∧
      (rec.genre = none → rec.genre_filtered = "Other")) ∧
    (genreOptions (load_data raw)).length ≤ 6 := by
  constructor
  · intro rec hrec
    obtain ⟨r, _, _, rfl⟩ := mem_load_data hrec
    constructor
    · intro g hg
      have hg2 : r.genre = some g := hg
      constructor
      · intro htop; simp [cleanRow, hg2, htop]
      · intro htop; simp [cleanRow, hg2, htop]
    · intro hg
      have hg2 : r.genre = none := hg
      simp [cleanRow, hg2]
  · have hsub :
        genreOptions (load_data raw) ⊆
          topGenres (raw.filter yearInDecade) ++ ["Other"] := by
      refine genreOptions_aux_subset _ (load_data raw) ?_ [] (by simp)
      intro rec hrec
      obtain ⟨r, _, _, rfl⟩ := mem_load_data hrec
      rcases cleanRow_gf_mem (topGenres (raw.filter yearInDecade)) r with h | h
      · exact List.mem_append.mpr (Or.inl h)
      · rw [h]; exact List.mem_append.mpr (Or.inr (by simp))
    have hnd : (genreOptions (load_data raw)).Nodup :=
      genreOptions_aux_nodup (load_data raw) [] (by simp)
    have hle := List.Subperm.length_le (List.subperm_of_subset hnd hsub)
    refine le_trans hle ?_
    rw [List.length_append]
    have := topGenres_length_le (raw.filter yearInDecade)
    simp only [List.length_singleton]
    omega

theorem genre_filtered_top5_or_other_witness :
    aliensClean.genre_filtered = "Action" ∧
      (genreOptions (load_data [aliensRaw])).length ≤ 6 :=
  ⟨(((genre_filtered_top5_or_other [aliensRaw]).1 aliensClean
      (by rw [load_data_aliens]; exact List.mem_singleton.mpr rfl)).1
        "Action" rfl).1 (by decide),
   (genre_filtered_top5_or_other [aliensRaw]).2⟩

/-- A character of the modelled literal fragment is none of the three
special characters the parser treats specially. -/
theorem regexSafeChar_not_special {c : Char}
    (h : regexSafeChar c = true) : c ≠ '.' ∧ c ≠ '(' ∧ c ≠ ')' := by
  refine ⟨?_, ?_, ?_⟩ <;> rintro rfl <;> exact absurd h (by decide)

/-- A keyword made of ordinary characters compiles to the list of its
characters as literal tokens. -/
theorem parseRegex_safe (l : List Char)
    (h : ∀ c ∈ l, regexSafeChar c = true) :
    parseRegex l 0 = Except.ok (l.map RegexToken.lit) := by
  induction l with
  | nil => rfl
  | cons c l ih =>
    have hc := h c (List.mem_cons_self c l)
    obtain ⟨h1, h2, h3⟩ := regexSafeChar_not_special hc
    simp only [parseRegex, if_neg h1, if_neg h2, if_neg h3, if_pos hc]
    rw [ih (fun x hx => h x (List.mem_cons_of_mem c hx))]
    rfl

/-- A pattern of literal tokens matches at the start of a text exactly
when its character list is a prefix of the text. -/
theorem matchHere_lit (l s : List Char) :
    matchHere (l.map RegexToken.lit) s = true ↔ l <+: s := by
  induction l generalizing s with
  | nil => simp [matchHere, List.nil_prefix]
  | cons c l ih =>
    cases s with
    | nil => simp [matchHere]
    | cons d s =>
      simp [matchHere, tokMatch, ih, List.cons_prefix_cons]

/-- Searching a pattern of literal tokens in a text succeeds exactly
when its character list is a contiguous substring of the text. -/
theorem reSearch_lit (l s : List Char) :
    reSearch (l.map RegexToken.lit) s = true ↔ l <:+: s := by
  induction s with
  | nil => simp [reSearch, matchHere_lit]
  | cons c s ih =>
    simp only [reSearch, Bool.or_eq_true, matchHere_lit, ih]
    exact List.infix_cons_iff.symm

/-- On a metacharacter-free regex search, the lowered pattern matches
the lowered text exactly when the substring abstraction does. -/
theorem reSearch_eq_strContainsCI (kw s : String) :
    reSearch ((lowerChars kw).map RegexToken.lit) (lowerChars s) =
      strContainsCI s kw := by
  by_cases hs : lowerChars kw <:+: lowerChars s
  · rw [(reSearch_lit _ _).mpr hs]
    unfold strContainsCI
    simp [hs]
  · have h2 : strContainsCI s kw = false := by
      unfold strContainsCI
      simp [hs]
    rw [h2, ← Bool.not_eq_true]
    intro hc
    exact hs ((reSearch_lit _ _).mp hc)

/-- For a keyword free of regex metacharacters the regex-faithful
filter never raises and coincides with the total substring embedding
`filter_data`. -/
theorem filter_data_re_safe (df : List MovieRecord) (smin smax : ℚ)
    (kw st : String) (gs : List String)
    (h : ∀ c ∈ lowerChars kw, regexSafeChar c = true) :
    filter_data_re df smin smax kw st gs =
      Except.ok (filter_data df smin smax kw st gs) := by
  by_cases hkw : kw = ""
  · simp only [filter_data_re, filter_data, if_pos hkw]
  · simp only [filter_data_re, filter_data, if_neg hkw,
      parseRegex_safe _ h]
    have hpred : (fun r : MovieRecord =>
        (match (if st = "Director" then r.director else r.star) with
          | some s =>
            reSearch ((lowerChars kw).map RegexToken.lit) (lowerChars s)
          | none => false)) = keywordPass kw st := by
      funext r
      unfold keywordPass fieldContains
      by_cases hst : st = "Director"
      · rw [if_pos hst, if_pos hst]
        cases r.director with
        | none => rfl
        | some s => exact reSearch_eq_strContainsCI kw s
      · rw [if_neg hst, if_neg hst]
        cases r.star with
        | none => rfl
        | some s => exact reSearch_eq_strContainsCI kw s
    rw [hpred]

/-- C4 counterexample: the keyword "." is a regular expression matching
any single character, so the cleaned record whose director cell is "D"
passes the keyword stage of the code although "D" does not contain "."
as a (case-insensitive) substring — the claimed substring biconditional
is false of `str.contains`'s default `regex=True` semantics. -/
theorem keyword_substring_cex :
    filter_data_re [plainRec] 0 10 "." "Director" ["Action"] =
      Except.ok [plainRec] ∧
    strContainsCI "D" "." = false :=
  ⟨rfl, by decide⟩

/-- C4 amended: with an empty keyword the stage is skipped entirely;
with a non-empty keyword the keyword is compiled as a case-insensitive
regular expression (pandas `regex=True` default) and a row passes iff
the regex matches somewhere in the field selected by the search type,
a missing field never passing (`na=False`); for keywords free of
regex metacharacters the regex match coincides with the
case-insensitive substring test; in particular a director cell
"James Cameron" matches the keyword "cameron". -/
theorem keyword_regex_spec (df : List MovieRecord) (smin smax : ℚ)
    (kw st : String) (gs : List String) :
    (kw = "" → filter_data_re df smin smax kw st gs =
      Except.ok (filter_data df smin smax kw st gs)) ∧
    (∀ ts, kw ≠ "" → parseRegex (lowerChars kw) 0 = Except.ok ts →
      ∃ res, filter_data_re df smin smax kw st gs = Except.ok res ∧
        ∀ r : MovieRecord, (r ∈ res ↔ r ∈ df ∧
          scorePass smin smax r = true ∧
          (∃ s, (if st = "Director" then r.director else r.star) =
              some s ∧
            reSearch ts (lowerChars s) = true) ∧
          gs.contains r.genre_filtered = true)) ∧
    ((∀ c ∈ lowerChars kw, regexSafeChar c = true) →
      parseRegex (lowerChars kw) 0 =
        Except.ok ((lowerChars kw).map RegexToken.lit) ∧
      ∀ s : String,
        (reSearch ((lowerChars kw).map RegexToken.lit)
            (lowerChars s) = true ↔
          strContainsCI s kw = true)) ∧
    reSearch ((lowerChars "cameron").map RegexToken.lit)
      (lowerChars "James Cameron") = true := by
  refine ⟨?_, ?_, ?_, by decide⟩
  · intro hkw
    simp only [filter_data_re, filter_data, if_pos hkw]
  · intro ts hkw hts
    simp only [filter_data_re, if_neg hkw, hts]
    refine ⟨_, rfl, ?_⟩
    intro r
    simp only [List.mem_filter]
    constructor
    · rintro ⟨⟨⟨hdf, hsc⟩, hkwm⟩, hg⟩
      refine ⟨hdf, hsc, ?_, hg⟩
      cases hf : (if st = "Director" then r.director else r.star) with
      | none => rw [hf] at hkwm; exact absurd hkwm (by simp)
      | some s => rw [hf] at hkwm; exact ⟨s, rfl, hkwm⟩
    · rintro ⟨hdf, hsc, ⟨s, hf, hre⟩, hg⟩
      refine ⟨⟨⟨hdf, hsc⟩, ?_⟩, hg⟩
      rw [hf]
      exact hre
  · intro hsafe
    refine ⟨parseRegex_safe _ hsafe, ?_⟩
    intro s
    rw [reSearch_eq_strContainsCI]

theorem keyword_regex_spec_witness :
    (reSearch ((lowerChars "cameron").map RegexToken.lit)
        (lowerChars "James Cameron") = true ↔
      strContainsCI "James Cameron" "cameron" = true) ∧
    reSearch ((lowerChars "cameron").map RegexToken.lit)
      (lowerChars "James Cameron") = true :=
  ⟨((keyword_regex_spec [plainRec] 0 10 "cameron" "Director"
      ["Action"]).2.2.1 (by decide)).2 "James Cameron",
   (keyword_regex_spec [plainRec] 0 10 "cameron" "Director"
      ["Action"]).2.2.2⟩

/-- The result of `filter_data` is always a subsequence of its input
table: the three stages are filters applied in sequence. -/
theorem filter_data_sublist_aux (df : List MovieRecord) (smin smax : ℚ)
    (kw st : String) (gs : List String) :
    (filter_data df smin smax kw st gs).Sublist df := by
  simp only [filter_data]
  split
  · exact (List.filter_sublist _).trans (List.filter_sublist _)
  · exact (List.filter_sublist _).trans
      ((List.filter_sublist _).trans (List.filter_sublist _))

/-- A cleaned row whose score lies outside the selected range: the
pipeline itself puts no upper bound on `score`, so the permissive-looking
criteria (0, 10, no keyword, all genres) do not return every cleaned
table unchanged. -/
def outlierRaw : RawRow :=
  { name := "Outlier", year := some 1985, genre := some "Action",
    score := some 42, director := some "D", star := some "S",
    budget := none, gross := none, runtime := none, company := none }

/-- C5 counterexample: on the cleaned table built from `outlierRaw`
(whose single row has score 42), `filter_data` with scoreMin 0,
scoreMax 10, empty keyword and all occurring genre labels selected drops
the row, so it does not return the cleaned table unchanged. -/
theorem filter_identity_cex :
    filter_data (load_data [outlierRaw]) 0 10 "" "Director"
        (genreOptions (load_data [outlierRaw])) ≠
      load_data [outlierRaw] := by decide

/-- C5 amended: with an empty keyword, a genre selection covering every
row and a score range covering every row's score, `filter_data` returns
its input unchanged (the pipeline does not bound scores to [0, 10], so
the concrete range 0–10 suffices only when every cleaned score lies in
it); and for every criteria the result is a subsequence of the input,
hence preserves the relative row order. -/
theorem filter_data_identity_stable (df : List MovieRecord)
    (smin smax : ℚ) (kw st : String) (gs : List String) :
    ((∀ r ∈ df, smin ≤ r.score ∧ r.score ≤ smax) →
      (∀ r ∈ df, r.genre_filtered ∈ gs) →
      kw = "" →
      filter_data df smin smax kw st gs = df) ∧
    (filter_data df smin smax kw st gs).Sublist df := by
  constructor
  · intro hscore hgen hkw
    have h1 : df.filter (scorePass smin smax) = df := by
      refine List.filter_eq_self.mpr ?_
      intro a ha
      unfold scorePass
      simp [(hscore a ha).1, (hscore a ha).2]
    have h2 :
        df.filter (fun r => gs.contains r.genre_filtered) = df := by
      refine List.filter_eq_self.mpr ?_
      intro a ha
      exact List.elem_eq_true_of_mem (hgen a ha)
    simp only [filter_data, hkw, if_pos]
    rw [h1, h2]
  · exact filter_data_sublist_aux df smin smax kw st gs

theorem filter_data_identity_stable_witness :
    filter_data [plainRec] 0 10 "" "Director" ["Action"] = [plainRec] ∧
      (filter_data [plainRec] 0 10 "" "Director" ["Action"]).Sublist
        [plainRec] :=
  ⟨(filter_data_identity_stable [plainRec] 0 10 "" "Director"
      ["Action"]).1 (by decide) (by decide) rfl,
   (filter_data_identity_stable [plainRec] 0 10 "" "Director"
      ["Action"]).2⟩

/-- C7 counterexample: on a table with no row named "zzz" the detail
lookup does not produce a graceful "not found" value — the `.iloc[0]`
on the empty selection fails (an `IndexError`, the error outcome of the
embedding). -/
theorem movie_detail_cex :
    movie_detail (load_data [aliensRaw]) "zzz" =
      Except.error "IndexError" := rfl

/-- C7 amended: when at least one record of the table has the given
name, the detail lookup returns the first such record in table order;
when no record matches, the raw lookup fails with an `IndexError`
rather than returning a "not found" value (the surrounding page never
triggers this because the select box offers only names present in the
table, and an empty table yields no selection at all). -/
theorem movie_detail_first_match (df : List MovieRecord) (name : String) :
    ((∃ r ∈ df, r.name = name) →
      ∃ l1 r l2, df = l1 ++ r :: l2 ∧ r.name = name ∧
        (∀ x ∈ l1, x.name ≠ name) ∧
        movie_detail df name = Except.ok r) ∧
    ((∀ r ∈ df, r.name ≠ name) →
      movie_detail df name = Except.error "IndexError") := by
  induction df with
  | nil =>
    refine ⟨?_, ?_⟩
    · rintro ⟨r, hr, -⟩
      exact absurd hr (List.not_mem_nil r)
    · intro _; rfl
  | cons r0 df ih =>
    by_cases h0 : r0.name = name
    · refine ⟨?_, ?_⟩
      · intro _
        refine ⟨[], r0, df, rfl, h0, by simp, ?_⟩
        simp [movie_detail, List.filter_cons, h0, iloc0]
      · intro hall
        exact absurd h0 (hall r0 (List.mem_cons_self r0 df))
    · have hfilter :
          (r0 :: df).filter (fun r => r.name == name) =
            df.filter (fun r => r.name == name) := by
        simp [List.filter_cons, h0]
      refine ⟨?_, ?_⟩
      · rintro ⟨r, hr, hname⟩
        have hr2 : r ∈ df := by
          rcases List.mem_cons.mp hr with h | h
          · exact absurd (h ▸ hname) h0
          · exact h
        obtain ⟨l1, rr, l2, hsplit, hrrname, hfirst, hdet⟩ :=
          ih.1 ⟨r, hr2, hname⟩
        refine ⟨r0 :: l1, rr, l2, by rw [hsplit, List.cons_append],
          hrrname, ?_, ?_⟩
        · intro x hx
          rcases List.mem_cons.mp hx with h | h
          · rw [h]; exact h0
          · exact hfirst x h
        · unfold movie_detail at hdet ⊢
          rw [hfilter]; exact hdet
      · intro hall
        have hres := ih.2 (fun r hr => hall r (List.mem_cons_of_mem r0 hr))
        unfold movie_detail at hres ⊢
        rw [hfilter]; exact hres

theorem movie_detail_first_match_witness :
    (∃ l1 r l2, [aliensClean] = l1 ++ r :: l2 ∧ r.name = "Aliens" ∧
      (∀ x ∈ l1, x.name ≠ "Aliens") ∧
      movie_detail [aliensClean] "Aliens" = Except.ok r) ∧
    movie_detail [aliensClean] "nemo" = Except.error "IndexError" :=
  ⟨(movie_detail_first_match [aliensClean] "Aliens").1
      ⟨aliensClean, List.mem_singleton.mpr rfl, rfl⟩,
   (movie_detail_first_match [aliensClean] "nemo").2 (by decide)⟩

/-- C8: every row of the output of `filter_data` is a row of the input
table (the output is a subsequence of the input); hence every row of
the filtered set of a cleaned table still satisfies the cleaned-table
invariants: it is a cleaned row, its year lies in the decade, and its
`genre_filtered` is a top-5 genre or "Other" (its score, budget and
gross are numeric by the record type itself). -/
theorem filter_output_subsequence (raw : List RawRow) (smin smax : ℚ)
    (kw st : String) (gs : List String) :
    (∀ df : List MovieRecord,
      (filter_data df smin smax kw st gs).Sublist df) ∧
    (∀ rec ∈ filter_data (load_data raw) smin smax kw st gs,
      rec ∈ load_data raw ∧
      (1980 ≤ rec.year ∧ rec.year ≤ 1989) ∧
      (rec.genre_filtered ∈ topGenres (raw.filter yearInDecade) ∨
        rec.genre_filtered = "Other")) := by
  refine ⟨fun df => filter_data_sublist_aux df smin smax kw st gs, ?_⟩
  intro rec hrec
  have hmem : rec ∈ load_data raw :=
    (filter_data_sublist_aux (load_data raw) smin smax kw st gs).subset
      hrec
  obtain ⟨r, hraw, hdec, rfl⟩ := mem_load_data hmem
  obtain ⟨h1, h2, -⟩ := cleanRow_year_bounds hdec
    (topGenres (raw.filter yearInDecade))
  exact ⟨hmem, ⟨h1, h2⟩, cleanRow_gf_mem _ r⟩

theorem filter_output_subsequence_witness :
    aliensClean ∈ load_data [aliensRaw] ∧
      (1980 ≤ aliensClean.year ∧ aliensClean.year ≤ 1989) ∧
      (aliensClean.genre_filtered ∈
          topGenres ([aliensRaw].filter yearInDecade) ∨
        aliensClean.genre_filtered = "Other") :=
  (filter_output_subsequence [aliensRaw] 0 10 "" "Director"
    ["Action"]).2 aliensClean
    (by
      have h :
          filter_data (load_data [aliensRaw]) 0 10 "" "Director"
            ["Action"] = [aliensClean] := rfl
      rw [h]; exact List.mem_singleton.mpr rfl)

/-- C9 counterexample: with the keyword "(" the keyword stage compiles
an invalid regular expression, so the code raises `re.error` before the
genre stage runs — `filter_data` does not return the empty table for
every searchKeyword, even with an empty genre selection. -/
theorem empty_genres_error_cex :
    filter_data_re [plainRec] 0 10 "(" "Director" [] =
      Except.error "re.error" ∧
    filter_data_re [plainRec] 0 10 "(" "Director" [] ≠
      Except.ok [] := by
  refine ⟨rfl, ?_⟩
  intro h
  exact Except.noConfusion
    (show (Except.error "re.error" : Except String (List MovieRecord)) =
      Except.ok [] from h)

/-- C9 amended: with an empty `selectedGenres` the genre stage blocks
every row, so `filter_data` returns the empty table whenever the
keyword stage runs without error — when the keyword is empty (the stage
is skipped) or compiles as a regular expression; a keyword whose
compilation fails (such as an unbalanced parenthesis) makes the keyword
stage raise `re.error` instead, so nothing is returned at all. -/
theorem filter_empty_genres_re (df : List MovieRecord) (smin smax : ℚ)
    (kw st : String) :
    (kw = "" → filter_data_re df smin smax kw st [] = Except.ok []) ∧
    (∀ ts, parseRegex (lowerChars kw) 0 = Except.ok ts →
      filter_data_re df smin smax kw st [] = Except.ok []) ∧
    (∀ e, kw ≠ "" → parseRegex (lowerChars kw) 0 = Except.error e →
      filter_data_re df smin smax kw st [] = Except.error e) := by
  have hnil : ∀ l : List MovieRecord,
      l.filter
        (fun r => List.contains ([] : List String) r.genre_filtered) =
        [] :=
    fun l => List.filter_eq_nil_iff.mpr (fun a _ => by simp)
  refine ⟨?_, ?_, ?_⟩
  · intro hkw
    simp only [filter_data_re, if_pos hkw, hnil]
  · intro ts hts
    by_cases hkw : kw = ""
    · simp only [filter_data_re, if_pos hkw, hnil]
    · simp only [filter_data_re, if_neg hkw, hts, hnil]
  · intro e hkw herr
    simp only [filter_data_re, if_neg hkw, herr]

theorem filter_empty_genres_re_witness :
    filter_data_re [plainRec] 0 10 "cameron" "Director" [] =
      Except.ok [] ∧
    filter_data_re [plainRec] 0 10 ")" "Director" [] =
      Except.error "re.error" :=
  ⟨(filter_empty_genres_re [plainRec] 0 10 "cameron" "Director").2.1
      ((lowerChars "cameron").map RegexToken.lit) rfl,
   (filter_empty_genres_re [plainRec] 0 10 ")" "Director").2.2
      "re.error" (by decide) rfl⟩

/-- C10: `filter_data` does not validate the search type: for every
value other than the exact string "Director" the keyword is matched
against the star field, so the result coincides with search type
"Star". -/
theorem searchtype_fallthrough (df : List MovieRecord) (smin smax : ℚ)
    (kw : String) (gs : List String) (st : String)
    (h : st ≠ "Director") :
    filter_data df smin smax kw st gs =
      filter_data df smin smax kw "Star" gs := by
  have hk : ∀ r : MovieRecord,
      keywordPass kw st r = keywordPass kw "Star" r := by
    intro r
    unfold keywordPass
    rw [if_neg h, if_neg (by decide : ¬ (("Star" : String) = "Director"))]
  have hfun : keywordPass kw st = keywordPass kw "Star" := funext hk
  simp only [filter_data, hfun]

theorem searchtype_fallthrough_witness :
    filter_data [plainRec] 0 10 "cameron" "Writer" ["Action"] =
      filter_data [plainRec] 0 10 "cameron" "Star" ["Action"] :=
  searchtype_fallthrough [plainRec] 0 10 "cameron" ["Action"] "Writer"
    (by decide)

/-- Character-level join of cells with a separator character, as in one
line of a CSV file. -/
def joinSep (sep : Char) : List (List Char) → List Char
  | [] => []
  | [c] => c
  | c :: c2 :: rest => c ++ sep :: joinSep sep (c2 :: rest)

/-- Whether a character forces quoting of its cell in a CSV file: the
separator, the quote character and the newline. -/
def specialChar (c : Char) : Bool :=
  c = ',' || c = '"' || c = '\n'

/-- Whether a cell must be quoted under the csv module's QUOTE_MINIMAL
convention used by `to_csv`: it contains a separator, a quote or a
newline. -/
def needsQuote : List Char → Bool
  | [] => false
  | c :: cs => specialChar c || needsQuote cs

/-- Quote-doubling inside a quoted cell: every `"` becomes `""`. -/
def escapeQuotes : List Char → List Char
  | [] => []
  | c :: cs =>
    if c = '"' then '"' :: '"' :: escapeQuotes cs
    else c :: escapeQuotes cs

/-- One cell as written by `to_csv` (QUOTE_MINIMAL): wrapped in quotes
with inner quotes doubled when it contains a special character, written
bare otherwise. -/
def encodeCell (cell : List Char) : List Char :=
  if needsQuote cell then '"' :: (escapeQuotes cell ++ ['"'])
  else cell

/-- State of the CSV reader: outside quotes, inside a quoted cell, or
just after a quote inside a quoted cell (which is either the closing
quote or the first half of a doubled one). -/
inductive ScanMode
  | plain
  | quoted
  | afterQuote

/-- The CSV reader, as in `csv`/`read_csv`: a character-at-a-time
scanner accumulating the current cell, the current row and the finished
rows; separators and newlines inside quoted cells are content, a
doubled quote inside a quoted cell is a literal quote. -/
def scanCsv (mode : ScanMode) (cur : List Char) (row : List (List Char))
    (rows : List (List (List Char))) :
    List Char → List (List (List Char))
  | [] => rows ++ [row ++ [cur]]
  | c :: rest =>
    match mode with
    | ScanMode.quoted =>
      if c = '"' then scanCsv ScanMode.afterQuote cur row rows rest
      else scanCsv ScanMode.quoted (cur ++ [c]) row rows rest
    | ScanMode.afterQuote =>
      if c = '"' then
        scanCsv ScanMode.quoted (cur ++ ['"']) row rows rest
      else if c = ',' then
        scanCsv ScanMode.plain [] (row ++ [cur]) rows rest
      else if c = '\n' then
        scanCsv ScanMode.plain [] [] (rows ++ [row ++ [cur]]) rest
      else scanCsv ScanMode.plain (cur ++ [c]) row rows rest
    | ScanMode.plain =>
      if c = ',' then scanCsv ScanMode.plain [] (row ++ [cur]) rows rest
      else if c = '\n' then
        scanCsv ScanMode.plain [] [] (rows ++ [row ++ [cur]]) rest
      else if c = '"' then scanCsv ScanMode.quoted cur row rows rest
      else scanCsv ScanMode.plain (cur ++ [c]) row rows rest

/-- The header of `filtered_df.to_csv(index=False)`: `to_csv` writes
every column of the dataframe, the ten source columns plus the derived
`genre_filtered` column appended by `load_data`. -/
def csvColumns : List String :=
  ["name", "year", "genre", "score", "director", "star", "budget",
   "gross", "runtime", "company", "genre_filtered"]

/-- Cell text of a possibly missing text value: pandas writes an empty
cell for NaN. -/
def optCell (v : Option String) : String :=
  v.getD ""

/-- Cell text of a numeric value: an injective textual rendering
standing for the pandas numeral; `to_csv` applies no rounding. -/
def ratCell (q : ℚ) : String :=
  toString q

/-- The cells of one exported row, in column order, at full
precision. -/
def rowCells (r : MovieRecord) : List String :=
  [r.name, toString r.year, optCell r.genre, ratCell r.score,
   optCell r.director, optCell r.star, ratCell r.budget,
   ratCell r.gross, optCell r.runtime, optCell r.company,
   r.genre_filtered]

/-- The cell grid of `filtered_df.to_csv(index=False)`: the header row
followed by one row of cells per record, in table order. -/
def csvTable (df : List MovieRecord) : List (List String) :=
  csvColumns :: df.map rowCells

/-- One line of CSV text: the cells, each quoted when needed
(QUOTE_MINIMAL), joined by commas. -/
def csvLine (row : List String) : List Char :=
  joinSep ',' (row.map (fun s => encodeCell s.toList))

/-- The CSV text of a cell grid: the lines joined by newlines. -/
def csvText (grid : List (List String)) : List Char :=
  joinSep '\n' (grid.map csvLine)

/-- Re-parsing CSV text with the quote-aware scanner. -/
def csvParse (l : List Char) : List (List String) :=
  (scanCsv ScanMode.plain [] [] [] l).map
    (fun row => row.map (fun cs => String.mk cs))

theorem mk_toList (s : String) : String.mk s.toList = s := by
  cases s
  rfl

theorem csvTable_rows_ne_nil (df : List MovieRecord) :
    ∀ row ∈ csvTable df, row ≠ [] := by
  intro row hrow
  rcases List.mem_cons.mp hrow with h | h
  · rw [h]; simp [csvColumns]
  · obtain ⟨r, -, rfl⟩ := List.mem_map.mp h
    simp [rowCells]

theorem scan_plain_comma (cur : List Char) (row : List (List Char))
    (rows : List (List (List Char))) (rest : List Char) :
    scanCsv ScanMode.plain cur row rows (',' :: rest) =
      scanCsv ScanMode.plain [] (row ++ [cur]) rows rest := rfl

theorem scan_plain_nl (cur : List Char) (row : List (List Char))
    (rows : List (List (List Char))) (rest : List Char) :
    scanCsv ScanMode.plain cur row rows ('\n' :: rest) =
      scanCsv ScanMode.plain [] [] (rows ++ [row ++ [cur]]) rest := rfl

theorem scan_plain_quote (cur : List Char) (row : List (List Char))
    (rows : List (List (List Char))) (rest : List Char) :
    scanCsv ScanMode.plain cur row rows ('"' :: rest) =
      scanCsv ScanMode.quoted cur row rows rest := rfl

theorem scan_plain_other {x : Char} (h1 : ¬(x = ',')) (h2 : ¬(x = '"'))
    (h3 : ¬(x = '\n')) (cur : List Char) (row : List (List Char))
    (rows : List (List (List Char))) (rest : List Char) :
    scanCsv ScanMode.plain cur row rows (x :: rest) =
      scanCsv ScanMode.plain (cur ++ [x]) row rows rest := by
  simp [scanCsv, h1, h2, h3]

theorem scan_quoted_quote (cur : List Char) (row : List (List Char))
    (rows : List (List (List Char))) (rest : List Char) :
    scanCsv ScanMode.quoted cur row rows ('"' :: rest) =
      scanCsv ScanMode.afterQuote cur row rows rest := rfl

theorem scan_quoted_other {x : Char} (h : ¬(x = '"')) (cur : List Char)
    (row : List (List Char)) (rows : List (List (List Char)))
    (rest : List Char) :
    scanCsv ScanMode.quoted cur row rows (x :: rest) =
      scanCsv ScanMode.quoted (cur ++ [x]) row rows rest := by
  simp [scanCsv, h]

theorem scan_aq_quote (cur : List Char) (row : List (List Char))
    (rows : List (List (List Char))) (rest : List Char) :
    scanCsv ScanMode.afterQuote cur row rows ('"' :: rest) =
      scanCsv ScanMode.quoted (cur ++ ['"']) row rows rest := rfl

/-- After a closing quote the scanner treats the next character exactly
as in plain mode. -/
theorem scan_aq_eq_plain (cur : List Char) (row : List (List Char))
    (rows : List (List (List Char))) {y : Char} (t : List Char)
    (hy : ¬(y = '"')) :
    scanCsv ScanMode.afterQuote cur row rows (y :: t) =
      scanCsv ScanMode.plain cur row rows (y :: t) := by
  by_cases h1 : y = ','
  · subst h1; rfl
  · by_cases h2 : y = '\n'
    · subst h2; rfl
    · simp [scanCsv, hy, h1, h2]

/-- Scanning the characters of a quote-free cell in plain mode just
accumulates them. -/
theorem scan_plain_chars (c : List Char) (hc : needsQuote c = false) :
    ∀ cur row rows rest,
      scanCsv ScanMode.plain cur row rows (c ++ rest) =
        scanCsv ScanMode.plain (cur ++ c) row rows rest := by
  induction c with
  | nil => intro cur row rows rest; simp
  | cons x c ih =>
    intro cur row rows rest
    rw [needsQuote, Bool.or_eq_false_iff] at hc
    have hx : ¬(x = ',') ∧ ¬(x = '"') ∧ ¬(x = '\n') := by
      have hs := hc.1
      rw [specialChar] at hs
      simp only [Bool.or_eq_false_iff, decide_eq_false_iff_not] at hs
      exact ⟨hs.1.1, hs.1.2, hs.2⟩
    rw [List.cons_append, scan_plain_other hx.1 hx.2.1 hx.2.2,
      ih hc.2, List.append_assoc, List.singleton_append]

/-- Scanning the quote-doubled text of a cell in quoted mode
accumulates the original cell. -/
theorem scan_quoted_chars (c : List Char) :
    ∀ cur row rows rest,
      scanCsv ScanMode.quoted cur row rows (escapeQuotes c ++ rest) =
        scanCsv ScanMode.quoted (cur ++ c) row rows rest := by
  induction c with
  | nil => intro cur row rows rest; simp [escapeQuotes]
  | cons x c ih =>
    intro cur row rows rest
    by_cases hx : x = '"'
    · subst hx
      have hesc : escapeQuotes ('"' :: c) =
          '"' :: '"' :: escapeQuotes c := by
        simp [escapeQuotes]
      rw [hesc, List.cons_append, List.cons_append, scan_quoted_quote,
        scan_aq_quote, ih, List.append_assoc, List.singleton_append]
    · simp only [escapeQuotes, if_neg hx, List.cons_append]
      rw [scan_quoted_other hx, ih, List.append_assoc,
        List.singleton_append]

/-- Scanning one encoded cell accumulates exactly the cell, whatever
characters it contains, as long as the remaining stream does not start
with a quote (after a cell comes a separator, a newline or the end). -/
theorem scan_cell (c : List Char) (cur : List Char)
    (row : List (List Char)) (rows : List (List (List Char)))
    (rest : List Char) (hrest : rest.head? ≠ some '"') :
    scanCsv ScanMode.plain cur row rows (encodeCell c ++ rest) =
      scanCsv ScanMode.plain (cur ++ c) row rows rest := by
  unfold encodeCell
  by_cases hq : needsQuote c = true
  · rw [if_pos hq]
    have hstream : ('"' :: (escapeQuotes c ++ ['"'])) ++ rest =
        '"' :: (escapeQuotes c ++ ('"' :: rest)) := by
      simp [List.append_assoc]
    rw [hstream, scan_plain_quote, scan_quoted_chars,
      scan_quoted_quote]
    cases rest with
    | nil => rfl
    | cons y t =>
      have hy : ¬(y = '"') := by
        intro h
        exact hrest (by simp [h])
      rw [scan_aq_eq_plain _ _ _ t hy]
  · rw [if_neg hq]
    exact scan_plain_chars c (by simpa using hq) cur row rows rest

theorem joinSep_cons_of_ne_nil (sep : Char) (x : List Char)
    (l : List (List Char)) (h : l ≠ []) :
    joinSep sep (x :: l) = x ++ sep :: joinSep sep l := by
  cases l with
  | nil => exact absurd rfl h
  | cons y t => rfl

/-- Scanning one encoded CSV line accumulates its cells, the last one
left pending in the cell buffer for the following separator, newline or
end of input to flush. -/
theorem scan_row (c : List Char) :
    ∀ (row row0 : List (List Char)) rows (rest : List Char),
      rest.head? ≠ some '"' →
      scanCsv ScanMode.plain [] row0 rows
          (joinSep ',' ((row ++ [c]).map encodeCell) ++ rest) =
        scanCsv ScanMode.plain c (row0 ++ row) rows rest := by
  intro row
  induction row with
  | nil =>
    intro row0 rows rest hrest
    simp only [List.nil_append, List.map_cons, List.map_nil, joinSep]
    rw [scan_cell c [] row0 rows rest hrest]
    simp
  | cons d row ih =>
    intro row0 rows rest hrest
    have hne : ((row ++ [c]).map encodeCell) ≠ [] := by simp
    simp only [List.cons_append, List.map_cons]
    rw [joinSep_cons_of_ne_nil ',' _ _ hne, List.append_assoc,
      List.cons_append]
    rw [scan_cell d [] row0 rows _ (by simp)]
    simp only [List.nil_append]
    rw [scan_plain_comma, ih (row0 ++ [d]) rows rest hrest,
      List.append_assoc, List.singleton_append]

/-- Scanning an encoded grid of non-empty rows recovers the grid. -/
theorem scan_grid (grid : List (List (List Char))) :
    ∀ rows0, grid ≠ [] → (∀ row ∈ grid, row ≠ []) →
      scanCsv ScanMode.plain [] [] rows0
          (joinSep '\n'
            (grid.map (fun row => joinSep ',' (row.map encodeCell)))) =
        rows0 ++ grid := by
  induction grid with
  | nil => intro rows0 h _; exact absurd rfl h
  | cons row grid ih =>
    intro rows0 _ hrows
    have hrow : row ≠ [] := hrows row (List.mem_cons_self row grid)
    obtain ⟨init, c, rfl⟩ : ∃ init c, row = init ++ [c] := by
      rcases List.eq_nil_or_concat row with h | ⟨init, c, hc⟩
      · exact absurd h hrow
      · exact ⟨init, c, by rw [hc, List.concat_eq_append]⟩
    cases grid with
    | nil =>
      simp only [List.map_cons, List.map_nil, joinSep]
      rw [← List.append_nil
        (joinSep ',' ((init ++ [c]).map encodeCell))]
      rw [scan_row c init [] rows0 [] (by simp)]
      simp [scanCsv]
    | cons row2 grid2 =>
      simp only [List.map_cons]
      rw [joinSep_cons_of_ne_nil '\n' _ _ (by simp)]
      rw [scan_row c init [] rows0 _ (by simp)]
      simp only [List.nil_append]
      rw [scan_plain_nl]
      have ihh := ih (rows0 ++ [init ++ [c]]) (by simp)
        (fun r hr => hrows r (List.mem_cons_of_mem _ hr))
      simp only [List.map_cons] at ihh
      rw [ihh]
      simp

/-- Writing any non-empty grid of non-empty rows to CSV text and
re-parsing it gives the grid back — QUOTE_MINIMAL quoting makes the
round trip unconditional, whatever the cells contain. -/
theorem csv_roundtrip_general (grid : List (List String))
    (hg : grid ≠ []) (hrows : ∀ row ∈ grid, row ≠ []) :
    csvParse (csvText grid) = grid := by
  unfold csvParse csvText
  have halign : grid.map csvLine =
      (grid.map (fun row => row.map String.toList)).map
        (fun row => joinSep ',' (row.map encodeCell)) := by
    rw [List.map_map]
    apply List.map_congr_left
    intro row _
    show csvLine row = joinSep ',' ((row.map String.toList).map encodeCell)
    unfold csvLine
    rw [List.map_map]
    rfl
  rw [halign, scan_grid _ [] (by simpa using hg) ?hrne]
  case hrne =>
    intro r hr
    obtain ⟨row, hrow, rfl⟩ := List.mem_map.mp hr
    simpa using hrows row hrow
  rw [List.nil_append, List.map_map]
  have hpt : ∀ row ∈ grid,
      ((fun row => row.map (fun cs => String.mk cs)) ∘
        (fun row => row.map String.toList)) row = row := by
    intro row _
    simp only [Function.comp_apply, List.map_map]
    have hmk : ∀ s ∈ row,
        ((fun cs => String.mk cs) ∘ String.toList) s = s :=
      fun s _ => mk_toList s
    rw [List.map_congr_left hmk, List.map_id']
  rw [List.map_congr_left hpt, List.map_id']

/-- C6 counterexample: on a concrete non-empty filtered set the
export's header row is not the claimed eight-column header
`name, year, genre, score, director, star, budget, gross`:
`to_csv(index=False)` writes every column of the dataframe, so the
header also carries `runtime`, `company` and the derived
`genre_filtered`. -/
theorem csv_export_cex :
    (csvTable
        (filter_data [plainRec] 0 10 "" "Director" ["Action"])).head? ≠
      some ["name", "year", "genre", "score", "director", "star",
        "budget", "gross"] := by decide

/-- C6 amended: the CSV export encodes every column of the filtered
table — the ten source columns plus the derived `genre_filtered` — in
table order and at full precision (no rounding: `round(2)` is applied
only to the on-screen table, never to the CSV bytes); the header row is
exactly the full column list; and re-parsing the CSV text reproduces
the exported header and cell grid exactly, for every filtered table,
because `to_csv` quotes any cell containing a separator, a quote or a
newline (QUOTE_MINIMAL, inner quotes doubled). -/
theorem csv_roundtrip (df : List MovieRecord) :
    csvParse (csvText (csvTable df)) = csvTable df ∧
    (csvTable df).head? = some csvColumns := by
  refine ⟨?_, rfl⟩
  exact csv_roundtrip_general (csvTable df) (by simp [csvTable])
    (csvTable_rows_ne_nil df)

end Movies
